import Mathlib

/-!
Verification development for the fabrix image-processing service.

The Python sources are embedded shallowly:

* CPython `float` values are IEEE-754 binary64 numbers; every such number is
  an exact rational, so floats are modelled as exact rationals together with
  the rounding map `Fabrix.roundF` (round to nearest, ties to even, at 53
  significant bits).  The repository only manipulates magnitudes far inside
  the normal range of binary64, so overflow and subnormal rounding never
  arise on the inputs considered here and are not modelled.
* Python `int` is `ℤ`; `int(x)` on a float is truncation toward zero
  (`Fabrix.pyInt`); `a / b` on two ints produces the correctly rounded
  binary64 quotient, and raises `ZeroDivisionError` when `b = 0`, modelled by
  `Except String`.
* Images are grids of `uint8` samples with explicit width and height.  The
  OpenCV primitives used by the pipeline (grayscale conversion, Gaussian
  blur, bilateral filter, Canny, dilation, morphological closing, resize) are
  external-library calls whose pixel semantics the repository does not
  define; they are modelled as an abstract bundle `Fabrix.CV2` of
  size-preserving stencils, which is exactly the shape contract OpenCV
  documents for them.  `bitwise_not` and `threshold`, whose pointwise
  semantics the claims depend on, are modelled concretely.
* File writes and collaborator calls are recorded as explicit event lists so
  that "no output file is created" and "no fallback resize happens" are
  propositions about the model.
-/

set_option autoImplicit false

namespace Fabrix

/-- Round a rational to the nearest integer, ties going to the even integer. -/
def roundHalfEven (y : ℚ) : ℤ :=
  if y - ⌊y⌋ < 1/2 then ⌊y⌋
  else if 1/2 < y - ⌊y⌋ then ⌊y⌋ + 1
  else if ⌊y⌋ % 2 = 0 then ⌊y⌋ else ⌊y⌋ + 1

/-- IEEE-754 binary64 rounding (round to nearest, ties to even) of an exact
rational, for magnitudes in the normal range of binary64.  A positive `x` with
`2^e ≤ x < 2^(e+1)` is sent to the nearest element of `{m * 2^(e-52) | m ∈ ℤ}`. -/
def roundF (x : ℚ) : ℚ :=
  if x = 0 then 0
  else if 0 < x then
    (roundHalfEven (x * 2 ^ ((52 : ℤ) - Int.log 2 x)) : ℚ) * 2 ^ (Int.log 2 x - 52)
  else
    -((roundHalfEven (-x * 2 ^ ((52 : ℤ) - Int.log 2 (-x))) : ℚ) * 2 ^ (Int.log 2 (-x) - 52))

/-- Python `int(x)` applied to a float: truncation toward zero. -/
def pyInt (x : ℚ) : ℤ :=
  if 0 ≤ x then ⌊x⌋ else -⌊-x⌋

/-- Conversion of a Python int to a float (exact below `2^53`). -/
def intF (n : ℤ) : ℚ := roundF (n : ℚ)

/-- Binary64 value of the correctly rounded quotient of two Python ints
(CPython's `long_true_divide`). -/
def truediv (a b : ℤ) : ℚ := roundF ((a : ℚ) / (b : ℚ))

/-- Python `a / b` on two ints: raises `ZeroDivisionError` on `b = 0`,
otherwise returns the correctly rounded binary64 quotient. -/
def pyDivII (a b : ℤ) : Except String ℚ :=
  if b = 0 then .error "division by zero" else .ok (truediv a b)

/-- Python `a / b` where at least one operand is a float. -/
def pyDivF (a b : ℚ) : Except String ℚ :=
  if b = 0 then .error "float division by zero" else .ok (roundF (a / b))

/-- Binary64 product of two floats. -/
def flMul (a b : ℚ) : ℚ := roundF (a * b)

/-- Binary64 difference of two floats. -/
def flSub (a b : ℚ) : ℚ := roundF (a - b)

/-- The binary64 value of the decimal literal `0.01`. -/
def float001 : ℚ := roundF (1/100)

/-- The binary64 value of the decimal literal `0.33`. -/
def float033 : ℚ := roundF (33/100)

/-- The binary64 value of the decimal literal `0.66`. -/
def float066 : ℚ := roundF (66/100)

/-- Python `round(x, 2)` on a float: round the exact value of `x` to two
decimal places (ties to even), then return the nearest binary64 number. -/
def pyRound2 (x : ℚ) : ℚ := roundF ((roundHalfEven (x * 100) : ℚ) / 100)

/-- The `{'width': w, 'height': h}` dictionary returned by the dimension
resolver `ImageUtils.calculate_new_dimensions`. -/
structure Dims where
  width : ℤ
  height : ℤ
  deriving DecidableEq

/-- Python truthiness of an optional int argument: `None` and `0` are falsy. -/
def truthy : Option ℤ → Bool
  | none => false
  | some n => n ≠ 0

/-- Python `a or b` for an optional int `a` and an int `b`. -/
def pyOr (a : Option ℤ) (b : ℤ) : ℤ :=
  match a with
  | none => b
  | some n => if n ≠ 0 then n else b

/-- Shallow embedding of `ImageUtils.calculate_new_dimensions`
(`src/utils/image_utils.py`, lines 130-194).  The `Except` layer models
uncaught Python exceptions: the function has no `try`/`except` of its own, so
a `ZeroDivisionError` raised by `/` propagates to the caller as `.error`. -/
def calculate_new_dimensions (original_width original_height : ℤ)
    (target_width target_height : Option ℤ) (maintain_aspect : Bool) :
    Except String Dims :=
  if maintain_aspect = false then
    .ok ⟨pyOr target_width original_width, pyOr target_height original_height⟩
  else do
    let ar ← pyDivII original_width original_height
    if truthy target_width ∧ ¬truthy target_height then do
      let tw := target_width.getD 0
      let h ← pyDivF (intF tw) ar
      return ⟨tw, pyInt h⟩
    else if truthy target_height ∧ ¬truthy target_width then do
      let th := target_height.getD 0
      return ⟨pyInt (flMul (intF th) ar), th⟩
    else if truthy target_width ∧ truthy target_height then do
      let tw := target_width.getD 0
      let th := target_height.getD 0
      let ta ← pyDivII tw th
      if |flSub ar ta| < float001 then
        return ⟨tw, th⟩
      else do
        let rw ← pyDivII tw original_width
        let rh ← pyDivII th original_height
        if rh < rw then
          return ⟨pyInt (flMul (intF th) ar), th⟩
        else do
          let h ← pyDivF (intF tw) ar
          return ⟨tw, pyInt h⟩
    else
      return ⟨original_width, original_height⟩

/-- A single-channel 8-bit raster image: a width, a height and a grid of
intensity samples (indexed column, row; values meant to lie in `0..255`). -/
@[ext]
structure Img where
  width : ℕ
  height : ℕ
  px : ℕ → ℕ → ℕ

/-- A three-channel (BGR) 8-bit raster image as decoded by `cv2.imread`. -/
@[ext]
structure Img3 where
  width : ℕ
  height : ℕ
  px : ℕ → ℕ → ℕ × ℕ × ℕ

/-- Morphological structuring-element shapes used by the repository. -/
inductive MorphShape where
  | ellipse
  deriving DecidableEq

/-- A structuring element as built by `cv2.getStructuringElement`. -/
structure Kern where
  shape : MorphShape
  kw : ℕ
  kh : ℕ
  deriving DecidableEq

/-- Model of `cv2.getStructuringElement(shape, size)`. -/
def getStructuringElement (s : MorphShape) (size : ℕ × ℕ) : Kern :=
  ⟨s, size.1, size.2⟩

/-- Interpolation strategies used by `cv2.resize` in the repository. -/
inductive Interp where
  | cubic
  | area
  | lanczos4
  | linear
  deriving DecidableEq

/-- Abstract pixel semantics of the external OpenCV primitives the pipeline
delegates to.  Each field gives the sample value of the output image at a
coordinate as a function of the whole input image; OpenCV guarantees (and the
embedding encodes) that these operations return an image of the same size as
their input (border mode `SAME`).  `otsuBinAt` is the pixel function of
`cv2.threshold(..., THRESH_BINARY + THRESH_OTSU)` and `medianVal` is
`np.median` of an image, as a float. -/
structure CV2 where
  cvtGrayAt : Img3 → ℕ → ℕ → ℕ
  gaussAt : ℕ × ℕ → ℚ → Img → ℕ → ℕ → ℕ
  cannyAt : ℤ → ℤ → ℕ → Bool → Img → ℕ → ℕ → ℕ
  bilateralAt : ℕ → ℚ → ℚ → Img → ℕ → ℕ → ℕ
  dilateAt : Kern → ℕ → Img → ℕ → ℕ → ℕ
  closeAt : Kern → Img → ℕ → ℕ → ℕ
  otsuBinAt : Img → ℕ → ℕ → ℕ
  medianVal : Img → ℚ
  resizeAt : Img3 → ℤ → ℤ → Interp → ℕ → ℕ → ℕ × ℕ × ℕ

/-- Model of `cv2.cvtColor(img, COLOR_BGR2GRAY)`. -/
def cvtColorGray (cv : CV2) (img : Img3) : Img :=
  ⟨img.width, img.height, cv.cvtGrayAt img⟩

/-- Model of `cv2.GaussianBlur(img, ksize, sigma)`. -/
def gaussianBlur (cv : CV2) (ksize : ℕ × ℕ) (sigma : ℚ) (img : Img) : Img :=
  ⟨img.width, img.height, cv.gaussAt ksize sigma img⟩

/-- Model of `cv2.Canny(img, t1, t2, apertureSize, L2gradient)`. -/
def canny (cv : CV2) (t1 t2 : ℤ) (aperture : ℕ) (l2 : Bool) (img : Img) : Img :=
  ⟨img.width, img.height, cv.cannyAt t1 t2 aperture l2 img⟩

/-- Model of `cv2.bilateralFilter(img, d, sigmaColor, sigmaSpace)`. -/
def bilateralFilter (cv : CV2) (d : ℕ) (sc ss : ℚ) (img : Img) : Img :=
  ⟨img.width, img.height, cv.bilateralAt d sc ss img⟩

/-- Model of `cv2.dilate(img, kernel, iterations)`. -/
def dilate (cv : CV2) (kern : Kern) (iterations : ℕ) (img : Img) : Img :=
  ⟨img.width, img.height, cv.dilateAt kern iterations img⟩

/-- Model of `cv2.morphologyEx(img, MORPH_CLOSE, kernel)`. -/
def morphClose (cv : CV2) (kern : Kern) (img : Img) : Img :=
  ⟨img.width, img.height, cv.closeAt kern img⟩

/-- Model of `cv2.threshold(img, 0, 255, THRESH_BINARY + THRESH_OTSU)`, image part. -/
def otsuBinarize (cv : CV2) (img : Img) : Img :=
  ⟨img.width, img.height, cv.otsuBinAt img⟩

/-- Model of `cv2.bitwise_not` on a `uint8` image: each sample `v` becomes `255 - v`. -/
def bitwise_not (img : Img) : Img :=
  ⟨img.width, img.height, fun x y => 255 - img.px x y⟩

/-- Model of `cv2.threshold(img, t, maxval, THRESH_BINARY)`, image part: samples
strictly above `t` become `maxval`, all others become `0`. -/
def thresholdBinary (t maxval : ℕ) (img : Img) : Img :=
  ⟨img.width, img.height, fun x y => if t < img.px x y then maxval else 0⟩

/-- The finishing step of every outline variant (`src/utils/outline_extractor.py`,
lines 85-90): invert the edge mask, then threshold at `127` with max `255`. -/
def binarize_invert (img : Img) : Img :=
  thresholdBinary 127 255 (bitwise_not img)

/-- The configuration values `OutlineExtractor.__init__` reads. -/
structure AppConfig where
  default_thickness : ℤ
  canny_threshold1 : ℤ
  canny_threshold2 : ℤ

/-- Encoder options passed to `cv2.imwrite` by the outline extractor. -/
inductive EncodeOpts where
  | pngCompression9
  | jpegQuality95
  | webpQuality95
  | codecDefault
  deriving DecidableEq

/-- One file written by `cv2.imwrite`: destination path, image, options. -/
structure FileWrite where
  path : String
  img : Img
  opts : EncodeOpts

/-- The `output_info` dictionary of a successful outline extraction.  The
`format` and the advanced/detail-specific keys are optional because the three
variants return slightly different dictionaries. -/
structure OutlineInfo where
  width : ℕ
  height : ℕ
  thickness : ℤ
  file_path : String
  format : Option String
  auto_thr : Option Bool
  detail : Option String

/-- Result dictionary of an outline extraction. -/
inductive OutlineResult where
  | success (info : OutlineInfo)
  | failure (error : String)

/-- Shallow embedding of `ImageUtils.pixels_to_inches`
(`src/utils/image_utils.py`, lines 196-207): the guard `ppi > 0` is evaluated
first, so the division is only performed on a positive divisor. -/
def pixels_to_inches (pixels ppi : ℤ) : Except String ℚ :=
  if 0 < ppi then (pyDivII pixels ppi).map pyRound2 else .ok 0

/-- Shallow embedding of `OutlineExtractor.extract_outline`
(`src/utils/outline_extractor.py`, lines 30-132).  `input` is the result of
`cv2.imread(input_path)` (`none` on decode failure); `output_ext` is
`Path(output_path).suffix.lower()`.  The returned pair is the result
dictionary together with the list of files written. -/
def extract_outline (cv : CV2) (config : AppConfig) (input_path : String)
    (input : Option Img3) (output_path output_ext : String)
    (thickness : Option ℤ) : OutlineResult × List FileWrite :=
  let t : ℤ := match thickness with
    | none => config.default_thickness
    | some t => t
  let t : ℤ := max 1 (min 5 t)
  match input with
  | none => (.failure ("Failed to read image from " ++ input_path), [])
  | some img =>
    let gray := cvtColorGray cv img
    let blurred := gaussianBlur cv (5, 5) (7/5) gray
    let edges := canny cv config.canny_threshold1 config.canny_threshold2 3 true blurred
    let edges := if 1 < t then
        dilate cv (getStructuringElement .ellipse (t.toNat, t.toNat)) 1 edges
      else edges
    let outline := bitwise_not edges
    let outline := thresholdBinary 127 255 outline
    let writes : List FileWrite :=
      if output_ext = ".png" then [⟨output_path, outline, .pngCompression9⟩]
      else if output_ext = ".jpg" ∨ output_ext = ".jpeg" then
        [⟨output_path, outline, .jpegQuality95⟩]
      else if output_ext = ".bmp" then [⟨output_path, outline, .codecDefault⟩]
      else if output_ext = ".tif" ∨ output_ext = ".tiff" then
        [⟨output_path, outline, .codecDefault⟩]
      else if output_ext = ".webp" then [⟨output_path, outline, .webpQuality95⟩]
      else [⟨output_path, outline, .pngCompression9⟩]
    (.success ⟨outline.width, outline.height, t, output_path,
      some ((output_ext.replace "." "").toUpper), none, none⟩, writes)

/-- Shallow embedding of `OutlineExtractor.extract_outline_advanced`
(`src/utils/outline_extractor.py`, lines 134-227). -/
def extract_outline_advanced (cv : CV2) (config : AppConfig) (input_path : String)
    (input : Option Img3) (output_path output_ext : String)
    (thickness : Option ℤ) (auto_threshold : Bool) : OutlineResult × List FileWrite :=
  let t : ℤ := match thickness with
    | none => config.default_thickness
    | some t => t
  let t : ℤ := max 1 (min 5 t)
  match input with
  | none => (.failure ("Failed to read image from " ++ input_path), [])
  | some img =>
    let gray := cvtColorGray cv img
    let filtered := bilateralFilter cv 9 75 75 gray
    let pair : ℤ × ℤ :=
      if auto_threshold then
        let binary := otsuBinarize cv filtered
        (pyInt (flMul (cv.medianVal binary) float033),
         pyInt (flMul (cv.medianVal binary) float066))
      else
        (config.canny_threshold1, config.canny_threshold2)
    let edges := canny cv pair.1 pair.2 3 true filtered
    let closed := morphClose cv (getStructuringElement .ellipse (3, 3)) edges
    let closed := if 1 < t then
        dilate cv (getStructuringElement .ellipse (t.toNat, t.toNat)) 1 closed
      else closed
    let outline := bitwise_not closed
    let outline := thresholdBinary 127 255 outline
    let writes : List FileWrite :=
      if output_ext = ".png" then [⟨output_path, outline, .pngCompression9⟩]
      else [⟨output_path, outline, .codecDefault⟩]
    (.success ⟨outline.width, outline.height, t, output_path,
      some ((output_ext.replace "." "").toUpper), some auto_threshold, none⟩, writes)

/-- Shallow embedding of `OutlineExtractor.extract_outline_with_detail`
(`src/utils/outline_extractor.py`, lines 229-315). -/
def extract_outline_with_detail (cv : CV2) (config : AppConfig) (input_path : String)
    (input : Option Img3) (output_path : String)
    (thickness : Option ℤ) (detail_level : String) : OutlineResult × List FileWrite :=
  let t : ℤ := match thickness with
    | none => config.default_thickness
    | some t => t
  let t : ℤ := max 1 (min 5 t)
  match input with
  | none => (.failure ("Failed to read image from " ++ input_path), [])
  | some img =>
    let gray := cvtColorGray cv img
    let params : (ℕ × ℕ) × ℤ × ℤ :=
      if detail_level = "low" then ((7, 7), 100, 200)
      else if detail_level = "high" then ((3, 3), 30, 100)
      else ((5, 5), config.canny_threshold1, config.canny_threshold2)
    let blurred := gaussianBlur cv params.1 (7/5) gray
    let edges := canny cv params.2.1 params.2.2 3 true blurred
    let edges := if 1 < t then
        dilate cv (getStructuringElement .ellipse (t.toNat, t.toNat)) 1 edges
      else edges
    let outline := bitwise_not edges
    let outline := thresholdBinary 127 255 outline
    let writes : List FileWrite := [⟨output_path, outline, .codecDefault⟩]
    (.success ⟨outline.width, outline.height, t, output_path,
      none, none, some detail_level⟩, writes)

/-- The interpolation choice of `ImageProcessor.enhance_image`
(`src/utils/image_processor.py`, lines 101-106): cubic when the target
exceeds the (upscaled) source in either axis, area otherwise. -/
def resize_interpolation (target_w target_h up_w up_h : ℤ) : Interp :=
  if up_w < target_w ∨ up_h < target_h then .cubic else .area

/-- Observable actions of one `enhance_image` run. -/
inductive ProcEvent where
  | upscaleCall
  | resizeOp (src_w src_h : ℕ) (target_w target_h : ℤ) (interp : Interp)
  | fileWrite (path : String)

/-- The `output_info` dictionary of a successful enhancement. -/
structure EnhanceInfo where
  width : ℤ
  height : ℤ
  ppi_h : ℤ
  ppi_v : ℤ
  width_inches : ℚ
  height_inches : ℚ
  file_path : String
  format : String

/-- Result dictionary of an enhancement. -/
inductive EnhanceResult where
  | success (info : EnhanceInfo)
  | failure (error : String)

/-- Model of `cv2.resize(img, (w, h), interpolation)`. -/
def cvResize (cv : CV2) (img : Img3) (w h : ℤ) (i : Interp) : Img3 :=
  ⟨w.toNat, h.toNat, cv.resizeAt img w h i⟩

/-- The aspect-ratio reconciliation block of `ImageProcessor.enhance_image`
(`src/utils/image_processor.py`, lines 78-88), as an `Except` computation so
that a `ZeroDivisionError` raised inside it propagates to the enclosing
`try`/`except`. -/
def aspect_adjust (maintain_aspect : Bool) (ow oh tw th : ℤ) :
    Except String (ℤ × ℤ) :=
  if maintain_aspect ∧ tw ≠ 0 ∧ th ≠ 0 then do
    let ar ← pyDivII ow oh
    let ta ← pyDivII tw th
    if float001 < |flSub ar ta| then do
      let rw ← pyDivII tw ow
      let rh ← pyDivII th oh
      if rh < rw then
        return (pyInt (flMul (intF th) ar), th)
      else do
        let nh ← pyDivF (intF tw) ar
        return (tw, pyInt nh)
    else
      return (tw, th)
  else
    return (tw, th)

/-- Shallow embedding of `RealESRGANModel.upscale_image`
(`src/models/realesrgan_model.py`, lines 123-156) as seen by `enhance_image`
(no `output_path` is passed there): raises `RuntimeError` when the model is
not loaded, `ValueError` when the image cannot be read, and otherwise returns
the upscaled image produced by the external model. -/
def upscale_image (model_loaded : Bool) (image_path : String)
    (decoded : Option Img3) (upscaled : Img3) : Except String Img3 :=
  if model_loaded = false then
    .error "Model not loaded. Cannot perform upscaling."
  else
    match decoded with
    | none => .error ("Failed to read image from " ++ image_path)
    | some _ => .ok upscaled

/-- Shallow embedding of `ImageProcessor.enhance_image`
(`src/utils/image_processor.py`, lines 38-200).  `model_present` is the truth
of `self.esrgan_model` (the handler object exists), `model_loaded` its
`model_loaded` flag; `input` is the decoded input image, `upscaled` the image
the external super-resolution collaborator would return, and `output_ext` is
`Path(output_path).suffix.lower()`.  The surrounding `try`/`except` of the
source maps any raised exception to a `failure` dictionary, keeping the list
of events that happened before the exception. -/
def enhance_image (cv : CV2) (model_present model_loaded : Bool)
    (input_path : String) (input : Option Img3) (upscaled : Img3)
    (output_path output_ext : String) (target_width target_height : Option ℤ)
    (ppi_horizontal ppi_vertical : ℤ) (maintain_aspect : Bool) :
    EnhanceResult × List ProcEvent :=
  if model_present = false then
    (.failure "ESRGAN model not initialized", [])
  else
    match input with
    | none => (.failure ("Failed to read image from " ++ input_path), [])
    | some orig =>
      let ow : ℤ := orig.width
      let oh : ℤ := orig.height
      let tw : ℤ := target_width.getD ow
      let th : ℤ := target_height.getD oh
      match aspect_adjust maintain_aspect ow oh tw th with
      | .error e => (.failure e, [])
      | .ok (tw, th) =>
        match upscale_image model_loaded input_path input upscaled with
        | .error e => (.failure e, [.upscaleCall])
        | .ok up =>
          let uw : ℤ := up.width
          let uh : ℤ := up.height
          let resized : Img3 × List ProcEvent :=
            if tw ≠ uw ∨ th ≠ uh then
              let i := resize_interpolation tw th uw uh
              (cvResize cv up tw th i, [.resizeOp up.width up.height tw th i])
            else (up, [])
          let events : List ProcEvent :=
            [.upscaleCall] ++ resized.2 ++ [.fileWrite output_path]
          match pyDivII tw ppi_horizontal with
          | .error e => (.failure e, events)
          | .ok wi =>
            match pyDivII th ppi_vertical with
            | .error e => (.failure e, events)
            | .ok hi =>
              (.success ⟨tw, th, ppi_horizontal, ppi_vertical,
                pyRound2 wi, pyRound2 hi, output_path,
                (output_ext.replace "." "").toUpper⟩, events)

/-- A trivial instance of the abstract OpenCV bundle, used to instantiate
universally quantified statements at concrete inputs. -/
def cvStub : CV2 :=
  ⟨fun _ _ _ => 0, fun _ _ _ _ _ => 0, fun _ _ _ _ _ _ _ => 0,
   fun _ _ _ _ _ _ => 0, fun _ _ _ _ _ => 0, fun _ _ _ _ => 0,
   fun _ _ _ => 0, fun _ => 0, fun _ _ _ _ _ _ => (0, 0, 0)⟩

/-- A concrete 2-by-2 three-channel image for witnesses. -/
def imgStub : Img3 := ⟨2, 2, fun _ _ => (0, 0, 0)⟩

/-- Nearest-integer rounding of an integer is that integer. -/
theorem roundHalfEven_intCast (n : ℤ) : roundHalfEven (n : ℚ) = n := by
  rw [roundHalfEven, Int.floor_intCast]
  norm_num

/-- Nearest-integer rounding moves a rational by at most one half. -/
theorem abs_roundHalfEven_sub_le (y : ℚ) : |(roundHalfEven y : ℚ) - y| ≤ 1/2 := by
  have h1 : (⌊y⌋ : ℚ) ≤ y := Int.floor_le y
  have h2 : y < ⌊y⌋ + 1 := Int.lt_floor_add_one y
  rw [roundHalfEven]
  split_ifs with hc1 hc2 hc3 <;> rw [abs_sub_le_iff] <;> push_cast <;>
    constructor <;> linarith

/-- When `2^e ≤ x < 2^(e+1)`, the binary64 rounding of `x` rounds the scaled
mantissa at exponent `e`. -/
theorem roundF_eq_aux (x : ℚ) (e : ℤ) (h1 : (2:ℚ) ^ e ≤ x) (h2 : x < 2 ^ (e + 1)) :
    roundF x = (roundHalfEven (x * 2 ^ ((52 : ℤ) - e)) : ℚ) * 2 ^ (e - 52) := by
  have hx : 0 < x := lt_of_lt_of_le (by positivity) h1
  have hlog : Int.log 2 x = e := by
    have hle : e ≤ Int.log 2 x := by
      rw [← Int.zpow_le_iff_le_log (by norm_num) hx]
      exact_mod_cast h1
    have hlt : Int.log 2 x < e + 1 := by
      rw [← Int.lt_zpow_iff_log_lt (by norm_num) hx]
      exact_mod_cast h2
    omega
  rw [roundF, if_neg (ne_of_gt hx), if_pos hx, hlog]

/-- Binary64 rounding is exact on zero. -/
theorem roundF_zero : roundF 0 = 0 := by
  rw [roundF, if_pos rfl]

/-- Relative error bound of one binary64 rounding on a positive rational: the
result moves by at most half an ulp, which is at most `x * 2^(-53)`. -/
theorem abs_roundF_sub_le (x : ℚ) (hx : 0 < x) :
    |roundF x - x| ≤ x * 2 ^ (-(53:ℤ)) := by
  have h1 : (2:ℚ) ^ (Int.log 2 x) ≤ x := Int.zpow_log_le_self (by norm_num) hx
  have h2 : x < (2:ℚ) ^ (Int.log 2 x + 1) := Int.lt_zpow_succ_log_self (by norm_num) x
  rw [roundF_eq_aux x (Int.log 2 x) h1 h2]
  set e := Int.log 2 x with he
  set y := x * 2 ^ ((52:ℤ) - e) with hy
  have hxy : x = y * 2 ^ (e - 52) := by
    rw [hy, mul_assoc, ← zpow_add₀ (two_ne_zero' ℚ)]
    norm_num
  have hstep : (roundHalfEven y : ℚ) * 2 ^ (e - 52) - x
      = ((roundHalfEven y : ℚ) - y) * 2 ^ (e - 52) := by
    rw [hxy]; ring
  rw [hstep, abs_mul, abs_of_pos (show (0:ℚ) < 2 ^ (e - 52) by positivity)]
  have hb := abs_roundHalfEven_sub_le y
  have hmono : |(roundHalfEven y : ℚ) - y| * 2 ^ (e - 52) ≤ (1/2) * 2 ^ (e - 52) := by
    have : (0:ℚ) ≤ 2 ^ (e - 52) := by positivity
    exact mul_le_mul_of_nonneg_right hb this
  refine le_trans hmono ?_
  have hsplit : (1/2 : ℚ) * 2 ^ (e - 52) = 2 ^ e * 2 ^ (-(53:ℤ)) := by
    have h12 : (1/2 : ℚ) = 2 ^ (-(1:ℤ)) := by norm_num
    rw [h12, ← zpow_add₀ (two_ne_zero' ℚ), ← zpow_add₀ (two_ne_zero' ℚ)]
    congr 1
    omega
  rw [hsplit]
  have : (0:ℚ) ≤ 2 ^ (-(53:ℤ)) := by positivity
  exact mul_le_mul_of_nonneg_right h1 this

/-- Binary64 rounding preserves strict positivity. -/
theorem roundF_pos (x : ℚ) (hx : 0 < x) : 0 < roundF x := by
  have h := abs_roundF_sub_le x hx
  rw [abs_sub_le_iff] at h
  have hu : x * 2 ^ (-(53:ℤ)) < x := by
    have h1 : (2:ℚ) ^ (-(53:ℤ)) < 1 := by
      rw [zpow_neg]
      norm_num
    nlinarith
  linarith [h.2]

/-- Binary64 rounding is exact on integers of magnitude below `2^53`. -/
theorem roundF_intCast (n : ℤ) (h0 : 0 < n) (h : n < 2 ^ 53) : roundF (n : ℚ) = n := by
  have hx : (0:ℚ) < (n:ℚ) := by exact_mod_cast h0
  have h1 : (2:ℚ) ^ (Int.log 2 (n:ℚ)) ≤ (n:ℚ) := Int.zpow_log_le_self (by norm_num) hx
  have h2 : (n:ℚ) < (2:ℚ) ^ (Int.log 2 (n:ℚ) + 1) := Int.lt_zpow_succ_log_self (by norm_num) (n:ℚ)
  set e := Int.log 2 (n:ℚ) with he
  have he0 : 0 ≤ e := by
    rw [he, ← Int.zpow_le_iff_le_log (by norm_num) hx]
    simpa using (by exact_mod_cast h0 : (1:ℚ) ≤ (n:ℚ))
  have he52 : e ≤ 52 := by
    have : Int.log 2 (n:ℚ) < 53 := by
      rw [← Int.lt_zpow_iff_log_lt (by norm_num) hx]
      calc (n:ℚ) < ((2:ℤ)^53 : ℤ) := by exact_mod_cast h
        _ = (2:ℚ) ^ (53:ℤ) := by norm_num
    omega
  rw [roundF_eq_aux (n:ℚ) e h1 h2]
  have hk : ((52:ℤ) - e) = (((52 - e).toNat : ℕ) : ℤ) := by omega
  have hyint : (n:ℚ) * 2 ^ ((52:ℤ) - e) = ((n * 2 ^ ((52 - e).toNat) : ℤ) : ℚ) := by
    push_cast
    rw [← zpow_natCast (2:ℚ) ((52 - e).toNat), ← hk]
  rw [hyint, roundHalfEven_intCast]
  rw [← hyint]
  rw [mul_assoc, ← zpow_add₀ (two_ne_zero' ℚ)]
  norm_num

/-- Binary64 rounding commutes with negation. -/
theorem roundF_neg (x : ℚ) (hx : 0 < x) : roundF (-x) = -roundF x := by
  rw [roundF, if_neg (by linarith), if_neg (by linarith), neg_neg,
    roundF, if_neg (ne_of_gt hx), if_pos hx]

/-- Two-sided version of the rounding error bound. -/
theorem roundF_bounds (x : ℚ) (hx : 0 < x) :
    x * (1 - 2 ^ (-(53:ℤ))) ≤ roundF x ∧ roundF x ≤ x * (1 + 2 ^ (-(53:ℤ))) := by
  have h := abs_roundF_sub_le x hx
  rw [abs_sub_le_iff] at h
  constructor <;> nlinarith [h.1, h.2]

/-- Double-rounding error of the quotient pattern `t / fl(a/b)` used by the
dimension resolver: with all operands in `[1, 2^25]` the computed float lies
within one half of the exact value `t * b / a`. -/
theorem doubleRound_close (t a b : ℚ) (ht1 : 1 ≤ t) (ht2 : t ≤ 2 ^ 25)
    (ha : 1 ≤ a) (hb1 : 1 ≤ b) (hb2 : b ≤ 2 ^ 25) :
    |roundF (t / roundF (a / b)) - t * b / a| ≤ 1/2 := by
  have hu53 : ((2:ℚ) ^ (-(53:ℤ))) = 1/9007199254740992 := by
    rw [zpow_neg]
    norm_num
  have ha0 : (0:ℚ) < a := lt_of_lt_of_le one_pos ha
  have hb0 : (0:ℚ) < b := lt_of_lt_of_le one_pos hb1
  have ht0 : (0:ℚ) < t := lt_of_lt_of_le one_pos ht1
  have hA0 : (0:ℚ) < a / b := div_pos ha0 hb0
  have hr1 := roundF_bounds (a/b) hA0
  rw [hu53] at hr1
  set r1 := roundF (a/b) with hr1_def
  have hr10 : 0 < r1 :=
    lt_of_lt_of_le (by nlinarith [hA0]) hr1.1
  set E := t * b / a with hE_def
  have hE0 : (0:ℚ) < E := by positivity
  have hE2 : E ≤ 2 ^ 50 := by
    rw [hE_def]
    have h1 : t * b ≤ 2 ^ 50 := by nlinarith
    have h2 : t * b / a ≤ t * b / 1 :=
      div_le_div_of_nonneg_left (by positivity) one_pos ha
    simpa using le_trans h2 (by simpa using h1)
  have hq0u : t / r1 ≤ E / (1 - 1/9007199254740992) := by
    have h1 : t / r1 ≤ t / ((a/b) * (1 - 1/9007199254740992)) :=
      div_le_div_of_nonneg_left (le_of_lt ht0) (by nlinarith [hA0]) hr1.1
    have h2 : t / ((a/b) * (1 - 1/9007199254740992))
        = E / (1 - 1/9007199254740992) := by
      rw [hE_def]
      field_simp
      ring
    linarith [h1, h2.le]
  have hq0l : E / (1 + 1/9007199254740992) ≤ t / r1 := by
    have h1 : t / ((a/b) * (1 + 1/9007199254740992)) ≤ t / r1 :=
      div_le_div_of_nonneg_left (le_of_lt ht0) hr10 hr1.2
    have h2 : t / ((a/b) * (1 + 1/9007199254740992))
        = E / (1 + 1/9007199254740992) := by
      rw [hE_def]
      field_simp
      ring
    linarith [h1, h2.ge]
  have hq00 : (0:ℚ) < t / r1 := div_pos ht0 hr10
  have hq := roundF_bounds (t / r1) hq00
  rw [hu53] at hq
  set q := roundF (t / r1) with hq_def
  have hq0 : 0 < q := roundF_pos _ hq00
  have hqu : q ≤ E / (1 - 1/9007199254740992) * (1 + 1/9007199254740992) := by
    have h4 : (t / r1) * (1 + 1/9007199254740992)
        ≤ E / (1 - 1/9007199254740992) * (1 + 1/9007199254740992) := by
      have : (0:ℚ) ≤ 1 + 1/9007199254740992 := by norm_num
      exact mul_le_mul_of_nonneg_right hq0u this
    linarith [hq.2]
  have hql : E / (1 + 1/9007199254740992) * (1 - 1/9007199254740992) ≤ q := by
    have h4 : E / (1 + 1/9007199254740992) * (1 - 1/9007199254740992)
        ≤ (t / r1) * (1 - 1/9007199254740992) := by
      have : (0:ℚ) ≤ 1 - 1/9007199254740992 := by norm_num
      exact mul_le_mul_of_nonneg_right hq0l this
    linarith [hq.1]
  rw [abs_sub_le_iff]
  have hqu2 : q ≤ E * (9007199254740993/9007199254740991) := by
    have h5 : E / (1 - 1/9007199254740992) * (1 + 1/9007199254740992)
        = E * (9007199254740993/9007199254740991) := by
      field_simp
      ring
    linarith [hqu, h5.le]
  have hql2 : E * (9007199254740991/9007199254740993) ≤ q := by
    have h5 : E / (1 + 1/9007199254740992) * (1 - 1/9007199254740992)
        = E * (9007199254740991/9007199254740993) := by
      field_simp
      ring
    linarith [hql, h5.ge]
  constructor
  · linarith [hqu2, hE2]
  · linarith [hql2, hE2]

/-- Double-rounding error of the product pattern `t * fl(a/b)` used by the
height-kept branches of the dimension resolver: with `t` and `a` in
`[1, 2^25]` and `b ≥ 1` the computed float lies within one half of the exact
value `t * a / b`. -/
theorem doubleRoundMul_close (t a b : ℚ) (ht1 : 1 ≤ t) (ht2 : t ≤ 2 ^ 25)
    (ha1 : 1 ≤ a) (ha2 : a ≤ 2 ^ 25) (hb : 1 ≤ b) :
    |roundF (t * roundF (a / b)) - t * a / b| ≤ 1/2 := by
  have hu53 : ((2:ℚ) ^ (-(53:ℤ))) = 1/9007199254740992 := by
    rw [zpow_neg]
    norm_num
  have ha0 : (0:ℚ) < a := lt_of_lt_of_le one_pos ha1
  have hb0 : (0:ℚ) < b := lt_of_lt_of_le one_pos hb
  have ht0 : (0:ℚ) < t := lt_of_lt_of_le one_pos ht1
  have hA0 : (0:ℚ) < a / b := div_pos ha0 hb0
  have hr1 := roundF_bounds (a/b) hA0
  rw [hu53] at hr1
  set r1 := roundF (a/b) with hr1_def
  have hr10 : 0 < r1 :=
    lt_of_lt_of_le (by nlinarith [hA0]) hr1.1
  set E := t * a / b with hE_def
  have hE0 : (0:ℚ) < E := by positivity
  have hE2 : E ≤ 2 ^ 50 := by
    rw [hE_def]
    have h1 : t * a ≤ 2 ^ 50 := by nlinarith
    have h2 : t * a / b ≤ t * a / 1 :=
      div_le_div_of_nonneg_left (by positivity) one_pos hb
    simpa using le_trans h2 (by simpa using h1)
  have htr1_l : E * (1 - 1/9007199254740992) ≤ t * r1 := by
    have h1 : t * ((a/b) * (1 - 1/9007199254740992)) ≤ t * r1 :=
      mul_le_mul_of_nonneg_left hr1.1 (le_of_lt ht0)
    have h2 : t * ((a/b) * (1 - 1/9007199254740992))
        = E * (1 - 1/9007199254740992) := by
      rw [hE_def]
      ring
    linarith [h1, h2.ge]
  have htr1_u : t * r1 ≤ E * (1 + 1/9007199254740992) := by
    have h1 : t * r1 ≤ t * ((a/b) * (1 + 1/9007199254740992)) :=
      mul_le_mul_of_nonneg_left hr1.2 (le_of_lt ht0)
    have h2 : t * ((a/b) * (1 + 1/9007199254740992))
        = E * (1 + 1/9007199254740992) := by
      rw [hE_def]
      ring
    linarith [h1, h2.le]
  have htrpos : (0:ℚ) < t * r1 := mul_pos ht0 hr10
  have hq := roundF_bounds (t * r1) htrpos
  rw [hu53] at hq
  set q := roundF (t * r1) with hq_def
  have hql : E * ((1 - 1/9007199254740992) * (1 - 1/9007199254740992)) ≤ q := by
    have h1 : E * (1 - 1/9007199254740992) * (1 - 1/9007199254740992)
        ≤ (t * r1) * (1 - 1/9007199254740992) :=
      mul_le_mul_of_nonneg_right htr1_l (by norm_num)
    have h2 : E * (1 - 1/9007199254740992) * (1 - 1/9007199254740992)
        = E * ((1 - 1/9007199254740992) * (1 - 1/9007199254740992)) := by ring
    linarith [h1, hq.1, h2.ge]
  have hqu : q ≤ E * ((1 + 1/9007199254740992) * (1 + 1/9007199254740992)) := by
    have h1 : (t * r1) * (1 + 1/9007199254740992)
        ≤ E * (1 + 1/9007199254740992) * (1 + 1/9007199254740992) :=
      mul_le_mul_of_nonneg_right htr1_u (by norm_num)
    have h2 : E * (1 + 1/9007199254740992) * (1 + 1/9007199254740992)
        = E * ((1 + 1/9007199254740992) * (1 + 1/9007199254740992)) := by ring
    linarith [h1, hq.2, h2.le]
  rw [abs_sub_le_iff]
  constructor
  · linarith [hqu, hE2, hE0]
  · linarith [hql, hE2, hE0]

/-- Truncating a positive float that lies within one half of a nonnegative
exact value gives an integer within one of the floor of the exact value. -/
theorem pyInt_close_floor (q E : ℚ) (hq : 0 < q) (h : |q - E| ≤ 1/2) :
    |pyInt q - ⌊E⌋| ≤ 1 := by
  rw [abs_sub_le_iff] at h
  rw [pyInt, if_pos (le_of_lt hq)]
  have hEl : (⌊E⌋ : ℚ) ≤ E := Int.floor_le E
  have hEu : E < ⌊E⌋ + 1 := Int.lt_floor_add_one E
  have hup : ⌊q⌋ ≤ ⌊E⌋ + 1 := by
    have : ⌊q⌋ < ⌊E⌋ + 2 := by
      rw [Int.floor_lt]
      push_cast
      linarith [h.1]
    omega
  have hdown : ⌊E⌋ - 1 ≤ ⌊q⌋ := by
    rw [Int.le_floor]
    push_cast
    linarith [h.2]
  rw [abs_le]
  omega

/-- Evaluation rule for `roundF` when the scaled mantissa rounds down. -/
theorem roundF_eq_down (c : ℚ) (e N : ℤ) (h1 : (2:ℚ) ^ e ≤ c) (h2 : c < 2 ^ (e + 1))
    (hN : ⌊c * 2 ^ ((52:ℤ) - e)⌋ = N) (hf : c * 2 ^ ((52:ℤ) - e) - N < 1/2) :
    roundF c = N * 2 ^ (e - 52) := by
  rw [roundF_eq_aux c e h1 h2, roundHalfEven, hN, if_pos hf]

/-- Evaluation rule for `roundF` when the scaled mantissa rounds up. -/
theorem roundF_eq_up (c : ℚ) (e N : ℤ) (h1 : (2:ℚ) ^ e ≤ c) (h2 : c < 2 ^ (e + 1))
    (hN : ⌊c * 2 ^ ((52:ℤ) - e)⌋ = N) (hf : 1/2 < c * 2 ^ ((52:ℤ) - e) - N) :
    roundF c = (N + 1) * 2 ^ (e - 52) := by
  rw [roundF_eq_aux c e h1 h2, roundHalfEven, hN, if_neg (by linarith), if_pos hf]
  push_cast
  ring

/-- Binary64 value of `400 / 300` (and of `800 / 600`): the double nearest to `4/3`. -/
theorem truediv_400_300 : truediv 400 300 = 6004799503160661/4503599627370496 := by
  have h : ((400:ℚ) / 300) = 4/3 := by norm_num
  rw [truediv]
  push_cast
  rw [h]
  rw [roundF_eq_down (4/3) 0 6004799503160661 (by norm_num) (by norm_num)
    (by rw [Int.floor_eq_iff] <;> norm_num) (by push_cast; norm_num)]
  norm_num

/-- Binary64 subtraction `2.0 - fl(4/3)` is exact. -/
theorem flSub_two_fl43 :
    flSub 2 (6004799503160661/4503599627370496) = 3002399751580331/4503599627370496 := by
  have h : (2:ℚ) - 6004799503160661/4503599627370496
      = 3002399751580331/4503599627370496 := by norm_num
  rw [flSub, h]
  rw [roundF_eq_down (3002399751580331/4503599627370496) (-1) 6004799503160662
    (by norm_num) (by norm_num)
    (by rw [Int.floor_eq_iff] <;> norm_num) (by push_cast; norm_num)]
  norm_num

/-- Binary64 value of the literal `0.01`. -/
theorem float001_eq : float001 = 5764607523034235/576460752303423488 := by
  rw [float001]
  rw [roundF_eq_up (1/100) (-7) 5764607523034234 (by norm_num) (by norm_num)
    (by rw [Int.floor_eq_iff] <;> norm_num) (by push_cast; norm_num)]
  norm_num

/-- Binary64 value of `400 / 1000`: the double nearest to `2/5`. -/
theorem truediv_400_1000 : truediv 400 1000 = 3602879701896397/9007199254740992 := by
  have h : ((400:ℚ) / 1000) = 2/5 := by norm_num
  rw [truediv]
  push_cast
  rw [h]
  rw [roundF_eq_up (2/5) (-2) 7205759403792793 (by norm_num) (by norm_num)
    (by rw [Int.floor_eq_iff] <;> norm_num) (by push_cast; norm_num)]
  norm_num

/-- Binary64 value of `300 / 500`: the double nearest to `3/5`. -/
theorem truediv_300_500 : truediv 300 500 = 5404319552844595/9007199254740992 := by
  have h : ((300:ℚ) / 500) = 3/5 := by norm_num
  rw [truediv]
  push_cast
  rw [h]
  rw [roundF_eq_down (3/5) (-1) 5404319552844595 (by norm_num) (by norm_num)
    (by rw [Int.floor_eq_iff] <;> norm_num) (by push_cast; norm_num)]
  norm_num

/-- Dividing the float `400.0` by the double nearest to `4/3` lands exactly
on `300.0` after rounding. -/
theorem roundF_400_div_fl43 :
    roundF (400 / (6004799503160661/4503599627370496 : ℚ)) = 300 := by
  have h : (400 / (6004799503160661/4503599627370496 : ℚ))
      = 1801439850948198400/6004799503160661 := by norm_num
  rw [h]
  rw [roundF_eq_down (1801439850948198400/6004799503160661) 8 5277655813324800
    (by norm_num) (by norm_num)
    (by rw [Int.floor_eq_iff] <;> norm_num) (by push_cast; norm_num)]
  norm_num

/-- Binary64 value of `100 / 127`. -/
theorem truediv_100_127 : truediv 100 127 = 7092282877748813/9007199254740992 := by
  have h : ((100:ℚ) / 127) = 100/127 := by norm_num
  rw [truediv]
  push_cast
  rw [h]
  rw [roundF_eq_up (100/127) (-1) 7092282877748812 (by norm_num) (by norm_num)
    (by rw [Int.floor_eq_iff] <;> norm_num) (by push_cast; norm_num)]
  norm_num

/-- Dividing the float `200.0` by the double nearest to `100/127` rounds to a
float strictly below `254`. -/
theorem roundF_200_div_fl :
    roundF (200 / (7092282877748813/9007199254740992 : ℚ))
      = 8936830510563327/35184372088832 := by
  have h : (200 / (7092282877748813/9007199254740992 : ℚ))
      = 1801439850948198400/7092282877748813 := by norm_num
  rw [h]
  rw [roundF_eq_down (1801439850948198400/7092282877748813) 7 8936830510563327
    (by norm_num) (by norm_num)
    (by rw [Int.floor_eq_iff] <;> norm_num) (by push_cast; norm_num)]
  norm_num

/-- Binary64 value of `1000 / 500` is exactly `2`. -/
theorem truediv_1000_500 : truediv 1000 500 = 2 := by
  have h : ((1000:ℚ) / 500) = ((2:ℤ) : ℚ) := by norm_num
  rw [truediv]
  push_cast
  rw [h, roundF_intCast 2 (by norm_num) (by norm_num)]
  norm_num

/-- Binary64 value of `800 / 600`: the double nearest to `4/3`. -/
theorem truediv_800_600 : truediv 800 600 = 6004799503160661/4503599627370496 := by
  have h : ((800:ℚ) / 600) = 4/3 := by norm_num
  rw [truediv]
  push_cast
  rw [h]
  rw [roundF_eq_down (4/3) 0 6004799503160661 (by norm_num) (by norm_num)
    (by rw [Int.floor_eq_iff] <;> norm_num) (by push_cast; norm_num)]
  norm_num

/-- Unfolding rule: binding an `Except.ok` value. -/
theorem except_bind_ok {e a b : Type} (x : a) (f : a → Except e b) :
    (Except.ok x >>= f) = f x := rfl

/-- Unfolding rule: `pure` on `Except` is `Except.ok`. -/
theorem except_pure {e a : Type} (x : a) : (pure x : Except e a) = Except.ok x := rfl

/-- Unfolding rule: mapping over an `Except.ok` value. -/
theorem except_map_ok {e a b : Type} (f : a → b) (x : a) :
    (f <$> (Except.ok x : Except e a)) = Except.ok (f x) := rfl

/-- Binary64 value of `500 / 1000` is exactly one half. -/
theorem truediv_500_1000 : truediv 500 1000 = 1/2 := by
  have h : ((500:ℚ) / 1000) = 1/2 := by norm_num
  rw [truediv]
  push_cast
  rw [h]
  rw [roundF_eq_down (1/2) (-1) 4503599627370496 (by norm_num) (by norm_num)
    (by rw [Int.floor_eq_iff] <;> norm_num) (by push_cast; norm_num)]
  norm_num

/-- Binary64 value of `300 / 400` is exactly three quarters. -/
theorem truediv_300_400 : truediv 300 400 = 3/4 := by
  have h : ((300:ℚ) / 400) = 3/4 := by norm_num
  rw [truediv]
  push_cast
  rw [h]
  rw [roundF_eq_down (3/4) (-1) 6755399441055744 (by norm_num) (by norm_num)
    (by rw [Int.floor_eq_iff] <;> norm_num) (by push_cast; norm_num)]
  norm_num

/-- Binary64 subtraction `0.5 - 0.75` is exactly minus one quarter. -/
theorem flSub_half_threequarters : flSub (1/2) (3/4) = -(1/4) := by
  have h : (1/2 : ℚ) - 3/4 = -(1/4) := by norm_num
  rw [flSub, h, roundF_neg (1/4) (by norm_num)]
  rw [roundF_eq_down (1/4) (-2) 4503599627370496 (by norm_num) (by norm_num)
    (by rw [Int.floor_eq_iff] <;> norm_num) (by push_cast; norm_num)]
  norm_num

/-- Conversion of a Python int in `(0, 2^53)` to a float is exact. -/
theorem intF_eq (n : ℤ) (h0 : 0 < n) (h : n < 2 ^ 53) : intF n = (n : ℚ) :=
  roundF_intCast n h0 h

/-- The dimension resolver with no targets and `maintain_aspect` falls through
every branch and returns the original dimensions, provided the aspect-ratio
division does not raise. -/
theorem calc_no_target (ow oh : ℤ) (hoh : oh ≠ 0) :
    calculate_new_dimensions ow oh none none true = .ok ⟨ow, oh⟩ := by
  simp [calculate_new_dimensions, pyDivII, truthy, hoh, except_bind_ok, except_pure, except_map_ok]

/-- The dimension resolver in the width-only branch. -/
theorem calc_width_only (ow oh tw : ℤ) (hoh : oh ≠ 0) (htw : tw ≠ 0)
    (har : truediv ow oh ≠ 0) :
    calculate_new_dimensions ow oh (some tw) none true
      = .ok ⟨tw, pyInt (roundF (intF tw / truediv ow oh))⟩ := by
  simp [calculate_new_dimensions, pyDivII, pyDivF, truthy, hoh, htw, har, except_bind_ok, except_pure, except_map_ok]

/-- The dimension resolver in the height-only branch. -/
theorem calc_height_only (ow oh th : ℤ) (hoh : oh ≠ 0) (hth : th ≠ 0) :
    calculate_new_dimensions ow oh none (some th) true
      = .ok ⟨pyInt (flMul (intF th) (truediv ow oh)), th⟩ := by
  simp [calculate_new_dimensions, pyDivII, truthy, hoh, hth, except_bind_ok, except_pure, except_map_ok]

/-- The dimension resolver in the both-targets branch, when the float check
reports differing aspect ratios and the width scale ratio does not exceed the
height scale ratio: the width is kept and the height is recomputed. -/
theorem calc_both_else (ow oh tw th : ℤ) (how : ow ≠ 0) (hoh : oh ≠ 0)
    (htw : tw ≠ 0) (hth : th ≠ 0)
    (hdiff : ¬(|flSub (truediv ow oh) (truediv tw th)| < float001))
    (hcmp : ¬(truediv th oh < truediv tw ow))
    (har : truediv ow oh ≠ 0) :
    calculate_new_dimensions ow oh (some tw) (some th) true
      = .ok ⟨tw, pyInt (roundF (intF tw / truediv ow oh))⟩ := by
  simp [calculate_new_dimensions, pyDivII, pyDivF, truthy, how, hoh, htw, hth,
    hdiff, hcmp, har, except_bind_ok, except_pure, except_map_ok]

/-- The dimension resolver in the both-targets branch, when the float check
reports differing aspect ratios and the width scale ratio strictly exceeds
the height scale ratio: the height is kept and the width is recomputed. -/
theorem calc_both_then (ow oh tw th : ℤ) (how : ow ≠ 0) (hoh : oh ≠ 0)
    (htw : tw ≠ 0) (hth : th ≠ 0)
    (hdiff : ¬(|flSub (truediv ow oh) (truediv tw th)| < float001))
    (hcmp : truediv th oh < truediv tw ow) :
    calculate_new_dimensions ow oh (some tw) (some th) true
      = .ok ⟨pyInt (flMul (intF th) (truediv ow oh)), th⟩ := by
  simp [calculate_new_dimensions, pyDivII, truthy, how, hoh, htw, hth,
    hdiff, hcmp, except_bind_ok, except_pure]

/-- Unfolding rule: binding an `Except.error` value. -/
theorem except_bind_error {e a b : Type} (err : e) (f : a → Except e b) :
    (Except.error err >>= f) = Except.error err := rfl

/-- C8: for every original size `(w, h)` (positive, per the `Dimensions`
invariant of the data model), calling the dimension resolver with no target
width, no target height and `maintain_aspect = true` returns `(w, h)`
unchanged. -/
theorem spec_c8_identity (ow oh : ℤ) (hw : 1 ≤ ow) (hh : 1 ≤ oh) :
    calculate_new_dimensions ow oh none none true = .ok ⟨ow, oh⟩ :=
  calc_no_target ow oh (by omega)

/-- Witness for C8 at the concrete original size `640 × 480`. -/
theorem spec_c8_identity_witness :
    (1:ℤ) ≤ 640 ∧ (1:ℤ) ≤ 480 ∧
      calculate_new_dimensions 640 480 none none true = .ok ⟨640, 480⟩ :=
  ⟨by decide, by decide, spec_c8_identity 640 480 (by decide) (by decide)⟩

/-- C2 (code bug): with an original height of `0` (and `maintain_aspect`),
the resolver raises an uncaught `ZeroDivisionError` instead of signalling an
error result; and with an original width of `0` and only a target height it
silently returns a zero width instead of an error.  The spec (§4.1 edge
cases, §7 propagation policy) requires a structured error result. -/
theorem spec_c2_zero_division :
    calculate_new_dimensions 100 0 (some 50) none true = .error "division by zero"
    ∧ calculate_new_dimensions 0 100 none (some 50) true = .ok ⟨0, 50⟩ := by
  constructor
  · simp [calculate_new_dimensions, pyDivII, except_bind_error]
  · have h0 : truediv 0 100 = 0 := by
      rw [truediv]
      norm_num [roundF_zero]
    have hm : flMul (intF 50) 0 = 0 := by
      rw [flMul, mul_zero, roundF_zero]
    simp [calculate_new_dimensions, pyDivII, truthy, except_bind_ok, except_pure,
      h0, hm, pyInt, Int.floor_zero]

/-- C3 (counterexample): for the original size `100 × 127` and target width
`200`, the resolver computes `int(200 / (100/127))` in binary64 arithmetic,
which yields height `253`, while `int(200 * 127 / 100)` (the claimed exact
formula) is `254`. -/
theorem spec_c3_counterexample :
    calculate_new_dimensions 100 127 (some 200) none true = .ok ⟨200, 253⟩
    ∧ (⌊((200:ℚ) * 127) / 100⌋ : ℤ) = 254
    ∧ calculate_new_dimensions 100 127 (some 200) none true ≠ .ok ⟨200, 254⟩ := by
  have har : truediv 100 127 ≠ 0 := by
    rw [truediv_100_127]
    norm_num
  have hmain : calculate_new_dimensions 100 127 (some 200) none true = .ok ⟨200, 253⟩ := by
    rw [calc_width_only 100 127 200 (by norm_num) (by norm_num) har]
    rw [intF_eq 200 (by norm_num) (by norm_num), truediv_100_127]
    have h200 : ((200:ℤ):ℚ) = 200 := by norm_num
    rw [h200, roundF_200_div_fl]
    have hfl : (⌊(8936830510563327/35184372088832 : ℚ)⌋ : ℤ) = 253 := by
      rw [Int.floor_eq_iff] <;> norm_num
    rw [pyInt, if_pos (by norm_num), hfl]
  refine ⟨hmain, by rw [Int.floor_eq_iff] <;> norm_num, ?_⟩
  rw [hmain]
  simp

/-- Cast of an integer bound `n ≤ 33554432` to the rational bound `n ≤ 2^25`. -/
theorem castBound25 (n : ℤ) (h : n ≤ 33554432) : (n : ℚ) ≤ 2 ^ 25 := by
  have h1 : (n : ℚ) ≤ 33554432 := by exact_mod_cast h
  linarith [h1, (by norm_num : ((2:ℚ) ^ 25) = 33554432)]

/-- C3 (amended): in the width-only branch the resolver returns width `w'`
and a height obtained by truncating the binary64 evaluation of `w' / (w/h)`;
because of the two roundings this differs from the exact `int(w' * h / w)` by
at most one.  Symmetrically, in the height-only branch it returns height `h'`
and a width `int(h' * (w/h))` in binary64, within one of the exact
`int(h' * w / h)`.  For the scenario `(800, 600)` with target width `400` the
roundings agree with the exact value and the result is exactly `(400, 300)`. -/
theorem spec_c3_amended (ow oh tw th : ℤ)
    (h1 : 1 ≤ ow) (h2 : ow ≤ 33554432) (h3 : 1 ≤ oh) (h4 : oh ≤ 33554432)
    (h5 : 1 ≤ tw) (h6 : tw ≤ 33554432) (h7 : 1 ≤ th) (h8 : th ≤ 33554432) :
    (∃ hgt : ℤ, calculate_new_dimensions ow oh (some tw) none true = .ok ⟨tw, hgt⟩
        ∧ |hgt - ⌊(tw : ℚ) * oh / ow⌋| ≤ 1)
    ∧ (∃ wd : ℤ, calculate_new_dimensions ow oh none (some th) true = .ok ⟨wd, th⟩
        ∧ |wd - ⌊(th : ℚ) * ow / oh⌋| ≤ 1)
    ∧ calculate_new_dimensions 800 600 (some 400) none true = .ok ⟨400, 300⟩ := by
  have howQ : (0:ℚ) < (ow:ℚ) := by exact_mod_cast h1
  have hohQ : (0:ℚ) < (oh:ℚ) := by exact_mod_cast h3
  have htwQ : (0:ℚ) < (tw:ℚ) := by exact_mod_cast h5
  have hthQ : (0:ℚ) < (th:ℚ) := by exact_mod_cast h7
  have harpos : 0 < truediv ow oh := roundF_pos _ (div_pos howQ hohQ)
  refine ⟨?_, ?_, ?_⟩
  · rw [calc_width_only ow oh tw (by omega) (by omega) (ne_of_gt harpos)]
    refine ⟨pyInt (roundF (intF tw / truediv ow oh)), rfl, ?_⟩
    rw [intF_eq tw (by omega) (by omega)]
    have hdr : |roundF ((tw:ℚ) / roundF ((ow:ℚ) / (oh:ℚ))) - (tw:ℚ) * oh / ow| ≤ 1/2 :=
      doubleRound_close (tw:ℚ) (ow:ℚ) (oh:ℚ) (by exact_mod_cast h5)
        (castBound25 tw h6) (by exact_mod_cast h1) (by exact_mod_cast h3)
        (castBound25 oh h4)
    have hqpos : 0 < roundF ((tw:ℚ) / truediv ow oh) :=
      roundF_pos _ (div_pos htwQ harpos)
    exact pyInt_close_floor _ _ hqpos (by rw [truediv] at hqpos ⊢; exact hdr)
  · rw [calc_height_only ow oh th (by omega) (by omega)]
    refine ⟨pyInt (flMul (intF th) (truediv ow oh)), rfl, ?_⟩
    rw [intF_eq th (by omega) (by omega), flMul]
    have hdr : |roundF ((th:ℚ) * roundF ((ow:ℚ) / (oh:ℚ))) - (th:ℚ) * ow / oh| ≤ 1/2 :=
      doubleRoundMul_close (th:ℚ) (ow:ℚ) (oh:ℚ) (by exact_mod_cast h7)
        (castBound25 th h8) (by exact_mod_cast h1) (castBound25 ow h2)
        (by exact_mod_cast h3)
    have hqpos : 0 < roundF ((th:ℚ) * truediv ow oh) :=
      roundF_pos _ (mul_pos hthQ harpos)
    exact pyInt_close_floor _ _ hqpos (by rw [truediv] at hqpos ⊢; exact hdr)
  · have har : truediv 800 600 ≠ 0 := by
      rw [truediv_800_600]
      norm_num
    rw [calc_width_only 800 600 400 (by norm_num) (by norm_num) har]
    rw [intF_eq 400 (by norm_num) (by norm_num), truediv_800_600]
    have h400 : ((400:ℤ):ℚ) = 400 := by norm_num
    rw [h400, roundF_400_div_fl43]
    have hfl : (⌊(300 : ℚ)⌋ : ℤ) = 300 := by
      rw [Int.floor_eq_iff] <;> norm_num
    rw [pyInt, if_pos (by norm_num), hfl]

/-- Witness for the amended C3 at the concrete original size `100 × 127` with
target width `200` (where the computed height `253` differs from the exact
`254` by exactly one) and target height `200` for the symmetric branch. -/
theorem spec_c3_amended_witness :
    (∃ hgt : ℤ, calculate_new_dimensions 100 127 (some 200) none true = .ok ⟨200, hgt⟩
        ∧ |hgt - ⌊(200 : ℚ) * 127 / 100⌋| ≤ 1)
    ∧ (∃ wd : ℤ, calculate_new_dimensions 100 127 none (some 200) true = .ok ⟨wd, 200⟩
        ∧ |wd - ⌊(200 : ℚ) * 100 / 127⌋| ≤ 1)
    ∧ calculate_new_dimensions 800 600 (some 400) none true = .ok ⟨400, 300⟩ :=
  spec_c3_amended 100 127 200 200 (by decide) (by decide) (by decide) (by decide)
    (by decide) (by decide) (by decide) (by decide)

/-- Scenario B drives the resolver into the differing-aspect branch: the
float check `|fl(1000/500) - fl(400/300)| < 0.01` is false. -/
theorem scenarioB_diff :
    ¬(|flSub (truediv 1000 500) (truediv 400 300)| < float001) := by
  rw [truediv_1000_500, truediv_400_300, flSub_two_fl43, float001_eq]
  rw [abs_of_pos (by norm_num)]
  norm_num

/-- Scenario B's scale-ratio comparison: `fl(300/500) < fl(400/1000)` is
false, so the resolver keeps the width. -/
theorem scenarioB_cmp : ¬(truediv 300 500 < truediv 400 1000) := by
  rw [truediv_300_500, truediv_400_1000]
  norm_num

/-- C1 (counterexample): for the original size `1000 × 500` and targets
`(400, 300)`, the resolver keeps the *smaller*-ratio axis (the width, since
`400/1000 < 300/500`) and recomputes the height, returning `(400, 200)` — not
the `(600, 300)` the claim derives by keeping the larger-ratio axis. -/
theorem spec_c1_counterexample :
    calculate_new_dimensions 1000 500 (some 400) (some 300) true = .ok ⟨400, 200⟩
    ∧ calculate_new_dimensions 1000 500 (some 400) (some 300) true ≠ .ok ⟨600, 300⟩ := by
  have har : truediv 1000 500 ≠ 0 := by
    rw [truediv_1000_500]
    norm_num
  have hmain : calculate_new_dimensions 1000 500 (some 400) (some 300) true
      = .ok ⟨400, 200⟩ := by
    rw [calc_both_else 1000 500 400 300 (by norm_num) (by norm_num) (by norm_num)
      (by norm_num) scenarioB_diff scenarioB_cmp har]
    rw [intF_eq 400 (by norm_num) (by norm_num), truediv_1000_500]
    have h : ((400:ℤ):ℚ) / 2 = ((200:ℤ):ℚ) := by norm_num
    rw [h, roundF_intCast 200 (by norm_num) (by norm_num)]
    rw [pyInt, if_pos (by norm_num), Int.floor_intCast]
  exact ⟨hmain, by rw [hmain]; simp⟩

/-- The swapped scenario (original `500 × 1000`, targets `(300, 400)`) also
drives the resolver into the differing-aspect branch: the float check
`|fl(500/1000) - fl(300/400)| < 0.01` is false. -/
theorem scenarioBswap_diff :
    ¬(|flSub (truediv 500 1000) (truediv 300 400)| < float001) := by
  rw [truediv_500_1000, truediv_300_400, flSub_half_threequarters, float001_eq]
  rw [abs_neg, abs_of_pos (by norm_num)]
  norm_num

/-- The swapped scenario's scale-ratio comparison: `fl(400/1000) < fl(300/500)`
holds, so the resolver keeps the height. -/
theorem scenarioBswap_cmp : truediv 400 1000 < truediv 300 500 := by
  rw [truediv_300_500, truediv_400_1000]
  norm_num

/-- C1 (amended): with both targets given, all four values in `[1, 2^25]`,
and the code's float tolerance check reporting differing aspect ratios, the
resolver keeps the axis with the *smaller* scale ratio fixed (comparing
`fl(w'/w)` with `fl(h'/h)`) and recomputes the other axis from the original
aspect ratio: if the width ratio does not exceed the height ratio, the width
`w'` is kept and the returned height is within one of `int(w' * h / w)` and
fits within `h'`; if the width ratio strictly exceeds the height ratio, the
height `h'` is kept and the returned width is within one of `int(h' * w / h)`
and fits within `w'`. -/
theorem spec_c1_amended (ow oh tw th : ℤ)
    (h1 : 1 ≤ ow) (h2 : ow ≤ 33554432) (h3 : 1 ≤ oh) (h4 : oh ≤ 33554432)
    (h5 : 1 ≤ tw) (h6 : tw ≤ 33554432) (h7 : 1 ≤ th) (h8 : th ≤ 33554432)
    (hdiff : ¬(|flSub (truediv ow oh) (truediv tw th)| < float001)) :
    (¬(truediv th oh < truediv tw ow) →
      ∃ hgt : ℤ, calculate_new_dimensions ow oh (some tw) (some th) true
          = .ok ⟨tw, hgt⟩
        ∧ |hgt - ⌊(tw : ℚ) * oh / ow⌋| ≤ 1 ∧ hgt ≤ th)
    ∧ (truediv th oh < truediv tw ow →
      ∃ wd : ℤ, calculate_new_dimensions ow oh (some tw) (some th) true
          = .ok ⟨wd, th⟩
        ∧ |wd - ⌊(th : ℚ) * ow / oh⌋| ≤ 1 ∧ wd ≤ tw) := by
  have howQ : (0:ℚ) < (ow:ℚ) := by exact_mod_cast h1
  have hohQ : (0:ℚ) < (oh:ℚ) := by exact_mod_cast h3
  have htwQ : (0:ℚ) < (tw:ℚ) := by exact_mod_cast h5
  have hthQ : (0:ℚ) < (th:ℚ) := by exact_mod_cast h7
  have harpos : 0 < truediv ow oh := roundF_pos _ (div_pos howQ hohQ)
  have hu53 : ((2:ℚ) ^ (-(53:ℤ))) = 1/9007199254740992 := by
    rw [zpow_neg]
    norm_num
  constructor
  · intro hcmp
    rw [calc_both_else ow oh tw th (by omega) (by omega) (by omega) (by omega)
      hdiff hcmp (ne_of_gt harpos)]
    rw [intF_eq tw (by omega) (by omega)]
    refine ⟨pyInt (roundF ((tw:ℚ) / truediv ow oh)), rfl, ?_, ?_⟩
    · have hdr : |roundF ((tw:ℚ) / roundF ((ow:ℚ) / (oh:ℚ))) - (tw:ℚ) * oh / ow| ≤ 1/2 :=
        doubleRound_close (tw:ℚ) (ow:ℚ) (oh:ℚ) (by exact_mod_cast h5)
          (castBound25 tw h6) (by exact_mod_cast h1) (by exact_mod_cast h3)
          (castBound25 oh h4)
      have hqpos : 0 < roundF ((tw:ℚ) / truediv ow oh) :=
        roundF_pos _ (div_pos htwQ harpos)
      exact pyInt_close_floor _ _ hqpos (by rw [truediv] at hqpos ⊢; exact hdr)
    · have hc : truediv tw ow ≤ truediv th oh := le_of_not_lt hcmp
      have hbw := roundF_bounds ((tw:ℚ) / ow) (div_pos htwQ howQ)
      have hbh := roundF_bounds ((th:ℚ) / oh) (div_pos hthQ hohQ)
      rw [hu53] at hbw hbh
      have hchain : (tw:ℚ)/ow * (1 - 1/9007199254740992)
          ≤ (th:ℚ)/oh * (1 + 1/9007199254740992) := by
        have ha' : (tw:ℚ)/ow * (1 - 1/9007199254740992) ≤ truediv tw ow := by
          rw [truediv]
          push_cast
          exact hbw.1
        have hb' : truediv th oh ≤ (th:ℚ)/oh * (1 + 1/9007199254740992) := by
          rw [truediv]
          push_cast
          exact hbh.2
        linarith
      have hmul := mul_le_mul_of_nonneg_right hchain (le_of_lt hohQ)
      have hL : (tw:ℚ)/ow * (1 - 1/9007199254740992) * oh
          = (tw:ℚ) * oh / ow * (1 - 1/9007199254740992) := by ring
      have hR : (th:ℚ)/oh * (1 + 1/9007199254740992) * oh
          = (th:ℚ) * (1 + 1/9007199254740992) := by
        field_simp
        ring
      rw [hL, hR] at hmul
      have hE2 : (tw:ℚ) * oh / ow ≤ 2 ^ 50 := by
        have ha1 : (tw:ℚ) * oh ≤ 2 ^ 50 := by
          have := mul_le_mul (castBound25 tw h6) (castBound25 oh h4)
            (le_of_lt hohQ) (by positivity)
          calc (tw:ℚ) * oh ≤ 2^25 * 2^25 := this
            _ = 2 ^ 50 := by norm_num
        have hd : (tw:ℚ) * oh / ow ≤ (tw:ℚ) * oh / 1 :=
          div_le_div_of_nonneg_left (by positivity) one_pos (by exact_mod_cast h1)
        simpa using le_trans hd (by simpa using ha1)
      have hdr : |roundF ((tw:ℚ) / roundF ((ow:ℚ) / (oh:ℚ))) - (tw:ℚ) * oh / ow| ≤ 1/2 :=
        doubleRound_close (tw:ℚ) (ow:ℚ) (oh:ℚ) (by exact_mod_cast h5)
          (castBound25 tw h6) (by exact_mod_cast h1) (by exact_mod_cast h3)
          (castBound25 oh h4)
      rw [abs_sub_le_iff] at hdr
      have hq_lt : roundF ((tw:ℚ) / truediv ow oh) < (th:ℚ) + 1 := by
        have hthb : (th:ℚ) ≤ 33554432 := by exact_mod_cast h8
        have ha' : roundF ((tw:ℚ) / truediv ow oh)
            ≤ (tw:ℚ) * oh / ow + 1/2 := by
          rw [truediv]
          push_cast
          linarith [hdr.1]
        nlinarith [hmul, hE2, hthb, ha']
      have hqpos : 0 < roundF ((tw:ℚ) / truediv ow oh) :=
        roundF_pos _ (div_pos htwQ harpos)
      rw [pyInt, if_pos (le_of_lt hqpos)]
      have hfl : ⌊roundF ((tw:ℚ) / truediv ow oh)⌋ < th + 1 := by
        rw [Int.floor_lt]
        push_cast
        exact hq_lt
      omega
  · intro hcmp
    rw [calc_both_then ow oh tw th (by omega) (by omega) (by omega) (by omega)
      hdiff hcmp]
    rw [intF_eq th (by omega) (by omega), flMul]
    refine ⟨pyInt (roundF ((th:ℚ) * truediv ow oh)), rfl, ?_, ?_⟩
    · have hdr : |roundF ((th:ℚ) * roundF ((ow:ℚ) / (oh:ℚ))) - (th:ℚ) * ow / oh| ≤ 1/2 :=
        doubleRoundMul_close (th:ℚ) (ow:ℚ) (oh:ℚ) (by exact_mod_cast h7)
          (castBound25 th h8) (by exact_mod_cast h1) (castBound25 ow h2)
          (by exact_mod_cast h3)
      have hqpos : 0 < roundF ((th:ℚ) * truediv ow oh) :=
        roundF_pos _ (mul_pos hthQ harpos)
      exact pyInt_close_floor _ _ hqpos (by rw [truediv] at hqpos ⊢; exact hdr)
    · have hc : truediv th oh ≤ truediv tw ow := le_of_lt hcmp
      have hbw := roundF_bounds ((tw:ℚ) / ow) (div_pos htwQ howQ)
      have hbh := roundF_bounds ((th:ℚ) / oh) (div_pos hthQ hohQ)
      rw [hu53] at hbw hbh
      have hchain : (th:ℚ)/oh * (1 - 1/9007199254740992)
          ≤ (tw:ℚ)/ow * (1 + 1/9007199254740992) := by
        have ha' : (th:ℚ)/oh * (1 - 1/9007199254740992) ≤ truediv th oh := by
          rw [truediv]
          push_cast
          exact hbh.1
        have hb' : truediv tw ow ≤ (tw:ℚ)/ow * (1 + 1/9007199254740992) := by
          rw [truediv]
          push_cast
          exact hbw.2
        linarith
      have hmul := mul_le_mul_of_nonneg_right hchain (le_of_lt howQ)
      have hL : (th:ℚ)/oh * (1 - 1/9007199254740992) * ow
          = (th:ℚ) * ow / oh * (1 - 1/9007199254740992) := by ring
      have hR : (tw:ℚ)/ow * (1 + 1/9007199254740992) * ow
          = (tw:ℚ) * (1 + 1/9007199254740992) := by
        field_simp
        ring
      rw [hL, hR] at hmul
      have hE2 : (th:ℚ) * ow / oh ≤ 2 ^ 50 := by
        have ha1 : (th:ℚ) * ow ≤ 2 ^ 50 := by
          have := mul_le_mul (castBound25 th h8) (castBound25 ow h2)
            (le_of_lt howQ) (by positivity)
          calc (th:ℚ) * ow ≤ 2^25 * 2^25 := this
            _ = 2 ^ 50 := by norm_num
        have hd : (th:ℚ) * ow / oh ≤ (th:ℚ) * ow / 1 :=
          div_le_div_of_nonneg_left (by positivity) one_pos (by exact_mod_cast h3)
        simpa using le_trans hd (by simpa using ha1)
      have hdr : |roundF ((th:ℚ) * roundF ((ow:ℚ) / (oh:ℚ))) - (th:ℚ) * ow / oh| ≤ 1/2 :=
        doubleRoundMul_close (th:ℚ) (ow:ℚ) (oh:ℚ) (by exact_mod_cast h7)
          (castBound25 th h8) (by exact_mod_cast h1) (castBound25 ow h2)
          (by exact_mod_cast h3)
      rw [abs_sub_le_iff] at hdr
      have hq_lt : roundF ((th:ℚ) * truediv ow oh) < (tw:ℚ) + 1 := by
        have htwb : (tw:ℚ) ≤ 33554432 := by exact_mod_cast h6
        have ha' : roundF ((th:ℚ) * truediv ow oh)
            ≤ (th:ℚ) * ow / oh + 1/2 := by
          rw [truediv]
          push_cast
          linarith [hdr.1]
        nlinarith [hmul, hE2, htwb, ha']
      have hqpos : 0 < roundF ((th:ℚ) * truediv ow oh) :=
        roundF_pos _ (mul_pos hthQ harpos)
      rw [pyInt, if_pos (le_of_lt hqpos)]
      have hfl : ⌊roundF ((th:ℚ) * truediv ow oh)⌋ < tw + 1 := by
        rw [Int.floor_lt]
        push_cast
        exact hq_lt
      omega

/-- Witness for the amended C1, exercising both branches: scenario B (original
`1000 × 500`, targets `(400, 300)`) keeps the width, and the swapped scenario
(original `500 × 1000`, targets `(300, 400)`) keeps the height. -/
theorem spec_c1_amended_witness :
    (∃ hgt : ℤ, calculate_new_dimensions 1000 500 (some 400) (some 300) true
        = .ok ⟨400, hgt⟩
      ∧ |hgt - ⌊(400 : ℚ) * 500 / 1000⌋| ≤ 1 ∧ hgt ≤ 300)
    ∧ (∃ wd : ℤ, calculate_new_dimensions 500 1000 (some 300) (some 400) true
        = .ok ⟨wd, 400⟩
      ∧ |wd - ⌊(400 : ℚ) * 500 / 1000⌋| ≤ 1 ∧ wd ≤ 300) :=
  ⟨(spec_c1_amended 1000 500 400 300 (by decide) (by decide) (by decide)
      (by decide) (by decide) (by decide) (by decide) (by decide)
      scenarioB_diff).1 scenarioB_cmp,
   (spec_c1_amended 500 1000 300 400 (by decide) (by decide) (by decide)
      (by decide) (by decide) (by decide) (by decide) (by decide)
      scenarioBswap_diff).2 scenarioBswap_cmp⟩

/-- C10: `pixels_to_inches` is total over all integer `ppi`: for `ppi ≤ 0` it
returns `0` without dividing (the guard is evaluated before the division),
and for `ppi > 0` it returns the quotient rounded to two decimals. -/
theorem spec_c10_total (pixels ppi : ℤ) :
    (ppi ≤ 0 → pixels_to_inches pixels ppi = .ok 0)
    ∧ (0 < ppi → pixels_to_inches pixels ppi
        = .ok (pyRound2 (truediv pixels ppi))) := by
  constructor
  · intro h
    rw [pixels_to_inches, if_neg (by omega)]
  · intro h
    rw [pixels_to_inches, if_pos h, pyDivII, if_neg (by omega)]
    rfl

/-- Witness for C10 at a negative `ppi` (returns `0`) and a positive `ppi`. -/
theorem spec_c10_total_witness :
    pixels_to_inches 300 (-72) = .ok 0
    ∧ pixels_to_inches 300 100 = .ok (pyRound2 (truediv 300 100)) :=
  ⟨(spec_c10_total 300 (-72)).1 (by decide), (spec_c10_total 300 100).2 (by decide)⟩

/-- C7: the resample step of `enhance_image` chooses cubic interpolation
whenever the target exceeds the source in either axis, and area interpolation
whenever the target strictly shrinks both axes. -/
theorem spec_c7_interpolation (tw th uw uh : ℤ) :
    (uw < tw ∨ uh < th → resize_interpolation tw th uw uh = .cubic)
    ∧ (tw < uw ∧ th < uh → resize_interpolation tw th uw uh = .area) := by
  constructor
  · intro h
    rw [resize_interpolation, if_pos h]
  · intro h
    rw [resize_interpolation, if_neg (by omega)]

/-- Witness for C7: enlarging `80 × 80` to `100 × 50` uses cubic, shrinking it
to `10 × 10` uses area. -/
theorem spec_c7_interpolation_witness :
    resize_interpolation 100 50 80 80 = .cubic
    ∧ resize_interpolation 10 10 80 80 = .area :=
  ⟨(spec_c7_interpolation 100 50 80 80).1 (by decide),
   (spec_c7_interpolation 10 10 80 80).2 (by decide)⟩

/-- C5 (counterexample): the binarize/invert step is not idempotent.  On a
1-by-1 all-black image the step produces the all-white image, but applying
the step to that output inverts it back to all-black. -/
theorem spec_c5_counterexample :
    binarize_invert (binarize_invert ⟨1, 1, fun _ _ => 0⟩)
      ≠ binarize_invert (⟨1, 1, fun _ _ => 0⟩ : Img) := by
  intro h
  have h00 := congrArg (fun i => i.px 0 0) h
  simp [binarize_invert, thresholdBinary, bitwise_not] at h00

/-- C5 (amended): the output of the binarize/invert step is a pure two-valued
image, and re-applying only the 50% threshold leaves it unchanged; but
re-applying the full invert-then-threshold step produces the pointwise
inversion of the output, not the output itself. -/
theorem spec_c5_amended (img : Img) :
    thresholdBinary 127 255 (binarize_invert img) = binarize_invert img
    ∧ binarize_invert (binarize_invert img) = bitwise_not (binarize_invert img)
    ∧ ∀ x y, (binarize_invert img).px x y = 0 ∨ (binarize_invert img).px x y = 255 := by
  refine ⟨?_, ?_, ?_⟩
  · refine Img.ext rfl rfl ?_
    funext x y
    simp only [binarize_invert, thresholdBinary, bitwise_not]
    split_ifs with h1 h2 h2 <;> norm_num at *
  · refine Img.ext rfl rfl ?_
    funext x y
    simp only [binarize_invert, thresholdBinary, bitwise_not]
    split_ifs with h1 h2 h2 <;> norm_num at *
  · intro x y
    simp only [binarize_invert, thresholdBinary, bitwise_not]
    split_ifs <;> simp

/-- C4: the requested thickness is clamped to `[1, 5]` before any kernel is
built, in every extraction variant: thickness `7` behaves identically to `5`,
and thickness `-3` identically to `1`, for every configuration, input image
and output destination. -/
theorem spec_c4_thickness_clamp (cv : CV2) (config : AppConfig) (ip : String)
    (inp : Option Img3) (op ext : String) (auto_thr : Bool) (dl : String) :
    extract_outline cv config ip inp op ext (some 7)
      = extract_outline cv config ip inp op ext (some 5)
    ∧ extract_outline cv config ip inp op ext (some (-3))
      = extract_outline cv config ip inp op ext (some 1)
    ∧ extract_outline_advanced cv config ip inp op ext (some 7) auto_thr
      = extract_outline_advanced cv config ip inp op ext (some 5) auto_thr
    ∧ extract_outline_advanced cv config ip inp op ext (some (-3)) auto_thr
      = extract_outline_advanced cv config ip inp op ext (some 1) auto_thr
    ∧ extract_outline_with_detail cv config ip inp op (some 7) dl
      = extract_outline_with_detail cv config ip inp op (some 5) dl
    ∧ extract_outline_with_detail cv config ip inp op (some (-3)) dl
      = extract_outline_with_detail cv config ip inp op (some 1) dl := by
  have h75 : max 1 (min 5 (7:ℤ)) = max 1 (min 5 (5:ℤ)) := by decide
  have h31 : max 1 (min 5 (-3:ℤ)) = max 1 (min 5 (1:ℤ)) := by decide
  refine ⟨?_, ?_, ?_, ?_, ?_, ?_⟩ <;>
    simp only [extract_outline, extract_outline_advanced,
      extract_outline_with_detail, h75, h31]

/-- C9: for every decodable input image, the fixed-variant outline pipeline
preserves pixel dimensions: the success dictionary reports the decoded width
and height, and every file written holds an image of exactly those
dimensions. -/
theorem spec_c9_dims_preserved (cv : CV2) (config : AppConfig) (ip : String)
    (img : Img3) (op ext : String) (t : Option ℤ) :
    ∃ info, (extract_outline cv config ip (some img) op ext t).1 = .success info
      ∧ info.width = img.width ∧ info.height = img.height
      ∧ ∀ w ∈ (extract_outline cv config ip (some img) op ext t).2,
          w.img.width = img.width ∧ w.img.height = img.height := by
  refine ⟨_, rfl, ?_, ?_, ?_⟩
  · simp only [extract_outline, thresholdBinary, bitwise_not, dilate, canny,
      gaussianBlur, cvtColorGray]
    split_ifs <;> rfl
  · simp only [extract_outline, thresholdBinary, bitwise_not, dilate, canny,
      gaussianBlur, cvtColorGray]
    split_ifs <;> rfl
  · intro w hw
    simp only [extract_outline, thresholdBinary, bitwise_not, dilate, canny,
      gaussianBlur, cvtColorGray] at hw
    split_ifs at hw <;> simp only [List.mem_singleton] at hw <;>
      subst hw <;> exact ⟨rfl, rfl⟩

/-- The aspect-ratio reconciliation block of `enhance_image` raises no
exception when the decoded image has positive dimensions. -/
theorem aspect_adjust_ok (ma : Bool) (ow oh tw th : ℤ)
    (how : 1 ≤ ow) (hoh : 1 ≤ oh) :
    ∃ p : ℤ × ℤ, aspect_adjust ma ow oh tw th = .ok p := by
  rw [aspect_adjust]
  by_cases hma : (ma = true ∧ tw ≠ 0 ∧ th ≠ 0)
  · rw [if_pos (by simpa using hma)]
    have hoh0 : oh ≠ 0 := by omega
    have how0 : ow ≠ 0 := by omega
    have harpos : 0 < truediv ow oh := by
      apply roundF_pos
      apply div_pos <;> [exact_mod_cast how; exact_mod_cast hoh]
    simp only [pyDivII, pyDivF, if_neg hoh0, if_neg how0, if_neg hma.2.2,
      if_neg (ne_of_gt harpos), except_bind_ok]
    split_ifs <;> exact ⟨_, rfl⟩
  · rw [if_neg (by simpa using hma)]
    exact ⟨_, rfl⟩

/-- C6: every enhancement request made while the super-resolution
collaborator reports not loaded (its `model_loaded` flag is false, or the
handler was never initialized) returns a failure result carrying the
model-unavailable error, performs no fallback resize, and writes no output
file. -/
theorem spec_c6_model_unavailable (cv : CV2) (present : Bool) (ip : String)
    (img : Img3) (upscaled : Img3) (op ext : String) (tw th : Option ℤ)
    (ppih ppiv : ℤ) (ma : Bool)
    (hw : 1 ≤ img.width) (hh : 1 ≤ img.height) :
    ∃ e evs,
      enhance_image cv present false ip (some img) upscaled op ext tw th ppih ppiv ma
        = (.failure e, evs)
      ∧ (e = "ESRGAN model not initialized"
          ∨ e = "Model not loaded. Cannot perform upscaling.")
      ∧ (∀ p, ProcEvent.fileWrite p ∉ evs)
      ∧ (∀ sw sh tww thh i, ProcEvent.resizeOp sw sh tww thh i ∉ evs) := by
  rw [enhance_image]
  cases present with
  | false =>
    refine ⟨"ESRGAN model not initialized", [], by simp, Or.inl rfl, ?_, ?_⟩ <;>
      simp
  | true =>
    rw [if_neg (by simp)]
    obtain ⟨p, hp⟩ := aspect_adjust_ok ma img.width img.height
      (tw.getD img.width) (th.getD img.height) (by exact_mod_cast hw)
      (by exact_mod_cast hh)
    refine ⟨"Model not loaded. Cannot perform upscaling.", [.upscaleCall], ?_,
      Or.inr rfl, ?_, ?_⟩
    · simp only [hp]
      rfl
    · intro q
      simp
    · intro sw sh tww thh i
      simp

/-- Witness for C6: a concrete request against the stub collaborator with the
loaded flag down fails with the model-unavailable error and produces no
resize and no file write. -/
theorem spec_c6_model_unavailable_witness :
    ∃ e evs,
      enhance_image cvStub true false "in.png" (some imgStub) imgStub "out.png"
          ".png" none none 72 72 true = (.failure e, evs)
      ∧ (e = "ESRGAN model not initialized"
          ∨ e = "Model not loaded. Cannot perform upscaling.")
      ∧ (∀ p, ProcEvent.fileWrite p ∉ evs)
      ∧ (∀ sw sh tww thh i, ProcEvent.resizeOp sw sh tww thh i ∉ evs) :=
  spec_c6_model_unavailable cvStub true "in.png" imgStub imgStub "out.png" ".png"
    none none 72 72 true (by decide) (by decide)

end Fabrix
